import Mathlib

/-!
Shallow embedding of `src/RubikPiWrapper/src/rubik_python_wrapper.cpp`
(the RubikDetector TensorFlow-Lite post-processing pipeline), together
with theorems settling the specification claims about it.

Modelling conventions:
* C `int` is modelled as `ℤ`, C `uint8_t` values as `ℕ`, and C `float` /
  `double` arithmetic as exact rational arithmetic over `ℚ`.  Every
  concrete counterexample below uses values (powers of two, exact
  integers) on which IEEE single precision and `ℚ` agree.
* Raw tensor memory is a pair of views (`bytes` for the `uint8_t*`
  reinterpretation, `floats` for the `float*` reinterpretation), exactly
  as the C code reinterprets one `void*` two ways.  The two views are
  independent parameters of the model; concrete instances are chosen
  consistent with an IEEE-754 little-endian layout.
* `cv::Mat` is modelled as dimensions plus a total pixel function; the
  external collaborators `cv::resize` (image library) are passed in as
  an explicit function parameter, since the spec treats them as
  out-of-scope collaborators.
* `std::sort` with comparator `a.confidence > b.confidence` is modelled
  by a stable insertion sort realising the tie-break the spec fixes
  ("earlier emission order wins").
-/

/-- `struct BoxRect` from the source: integer box corners. -/
structure BoxRect where
  left : ℤ
  right : ℤ
  top : ℤ
  bottom : ℤ
deriving DecidableEq, Repr

/-- `struct DetectionResult` from the source. -/
structure DetectionResult where
  id : ℤ
  box : BoxRect
  confidence : ℚ
deriving DecidableEq, Repr

/-- The `TfLiteType` storage-kind enum (the members relevant here). -/
inductive TfLiteType where
  | noType
  | float32
  | int32
  | uint8
  | int64
  | int16
  | int8
  | float16
deriving DecidableEq, Repr

/-- One raw tensor buffer, seen both as `uint8_t*` and as `float*`,
mirroring the C reinterpretation of a single `void* data`. -/
structure TensorData where
  bytes : ℕ → ℕ
  floats : ℕ → ℚ

/-- `get_dequant_value` from the source: uint8 storage dequantizes as
`(raw - zero_point) * scale`, float32 storage is passed through, every
other storage kind falls to the `default` branch returning `0.0f`. -/
def get_dequant_value (data : TensorData) (tensor_type : TfLiteType)
    (idx : ℕ) (zero_point scale : ℚ) : ℚ :=
  match tensor_type with
  | .uint8 => ((data.bytes idx : ℚ) - zero_point) * scale
  | .float32 => data.floats idx
  | _ => 0

/-- `TfLiteQuantizationParams`: float scale and integer zero point. -/
structure QuantParams where
  zero_point : ℤ
  scale : ℚ
deriving DecidableEq

/-- A TfLite tensor as the `detect` post-processing consumes it: raw
data, declared storage type, quantization parameters. -/
structure Tensor where
  data : TensorData
  ttype : TfLiteType
  qparams : QuantParams

/-- The loop of `tensor_image_dims`: `cursor` counts the non-singleton
dimensions assigned so far; `w h c` are the output slots. -/
def tidLoop : List ℤ → ℕ → ℤ → ℤ → ℤ → Option (ℤ × ℤ × ℤ)
  | [], cursor, w, h, c =>
      if cursor < 2 then none
      else
        let cFinal := if cursor = 2 then 1 else c
        if 4 < cFinal then none else some (w, h, cFinal)
  | d :: rest, cursor, w, h, c =>
      if d = 0 then none
      else if d = 1 then tidLoop rest cursor w h c
      else if cursor = 0 then tidLoop rest 1 d h c
      else if cursor = 1 then tidLoop rest 2 w d c
      else if cursor = 2 then tidLoop rest 3 w h d
      else none

/-- `tensor_image_dims` from the source, as a function of the tensor's
dimension list; `none` models `return false`. -/
def tensor_image_dims (dims : List ℤ) : Option (ℤ × ℤ × ℤ) :=
  tidLoop dims 0 0 0 0

/-- The non-singleton test of the geometry scan: `dim != 1`. -/
def notOne (d : ℤ) : Bool := d ≠ 1

/-- The claim's description of the geometry scan, written from the
spec's words: error exactly when a dimension is 0, more than three or
fewer than two non-singleton dimensions exist, or the resolved channel
count exceeds 4; first non-singleton is width, second height, third
channels, defaulting to 1 when only two exist. -/
def tid_claim (dims : List ℤ) : Option (ℤ × ℤ × ℤ) :=
  let ns := dims.filter notOne
  if (0 : ℤ) ∈ dims then none
  else if 3 < ns.length then none
  else if ns.length < 2 then none
  else
    let c := if ns.length = 2 then (1 : ℤ) else ns.getD 2 0
    if 4 < c then none
    else some (ns.getD 0 0, ns.getD 1 0, c)

/-- `calculateIoU` from the source, with C `int` arithmetic in `ℤ` and
the final float division in `ℚ`. -/
def calculateIoU (box1 box2 : BoxRect) : ℚ :=
  let x1 := max box1.left box2.left
  let y1 := max box1.top box2.top
  let x2 := min box1.right box2.right
  let y2 := min box1.bottom box2.bottom
  if x2 ≤ x1 ∨ y2 ≤ y1 then 0
  else
    let intersectionArea := (x2 - x1) * (y2 - y1)
    let area1 := (box1.right - box1.left) * (box1.bottom - box1.top)
    let area2 := (box2.right - box2.left) * (box2.bottom - box2.top)
    (intersectionArea : ℚ) / ((area1 : ℚ) + (area2 : ℚ) - (intersectionArea : ℚ))

/-- Insert a candidate into a descending-confidence list, keeping it
before later elements of equal confidence (the tie-break the spec fixes
for the `std::sort` call: earlier emission order wins). -/
def insertDesc (x : DetectionResult) : List DetectionResult → List DetectionResult
  | [] => [x]
  | y :: ys => if y.confidence ≤ x.confidence then x :: y :: ys else y :: insertDesc x ys

/-- The `std::sort` call of `optimizedNMS`: sort by confidence
descending. -/
def sortDesc : List DetectionResult → List DetectionResult
  | [] => []
  | x :: xs => insertDesc x (sortDesc xs)

/-- The inner loop of `optimizedNMS`: after accepting `cur`, mark every
later unsuppressed candidate of the same class whose IoU with `cur`
exceeds the threshold. -/
def suppressPass (cur : DetectionResult) (thr : ℚ) :
    List (DetectionResult × Bool) → List (DetectionResult × Bool) :=
  List.map (fun p =>
    if p.2 = false ∧ p.1.id = cur.id ∧ thr < calculateIoU cur.box p.1.box
    then (p.1, true) else p)

/-- The outer loop of `optimizedNMS` over the sorted candidates paired
with their `suppressed` flags: skip suppressed entries, accept the rest
and run the suppression pass over the later entries. -/
def nmsLoop (thr : ℚ) : List (DetectionResult × Bool) → List DetectionResult
  | [] => []
  | p :: rest =>
      if p.2 = true then nmsLoop thr rest
      else p.1 :: nmsLoop thr (suppressPass p.1 thr rest)
termination_by l => l.length
decreasing_by
  · simp
  · simp [suppressPass]

/-- `optimizedNMS` from the source: sort by confidence descending, then
greedily accept and suppress. -/
def optimizedNMS (candidates : List DetectionResult) (nmsThreshold : ℚ) :
    List DetectionResult :=
  nmsLoop nmsThreshold ((sortDesc candidates).map (fun c => (c, false)))

/-- `static_cast<int>(std::round(q))`: round half away from zero. -/
def cppRound (q : ℚ) : ℤ :=
  if 0 ≤ q then ⌊q + 1/2⌋ else ⌈q - 1/2⌉

/-- The score decode inside `detect`'s candidate loop: the storage kind
argument is the literal `kTfLiteUInt8`, exactly as in the source. -/
def candidateScore (scoresTensor : Tensor) (i : ℕ) : ℚ :=
  get_dequant_value scoresTensor.data .uint8 i
    (scoresTensor.qparams.zero_point : ℚ) scoresTensor.qparams.scale

/-- One iteration of `detect`'s candidate-building loop (source lines
302–337): threshold filter, raw class id, per-coordinate dequantization
(again with the literal `kTfLiteUInt8`), clamping, degeneracy check,
rounding. -/
def buildCandidate (boxesTensor scoresTensor classesTensor : Tensor)
    (box_threshold : ℚ) (img_w img_h : ℕ) (i : ℕ) : Option DetectionResult :=
  let score := candidateScore scoresTensor i
  if score < box_threshold then none
  else
    let classId : ℤ := classesTensor.data.bytes i
    let x1 := get_dequant_value boxesTensor.data .uint8 (i * 4)
      (boxesTensor.qparams.zero_point : ℚ) boxesTensor.qparams.scale
    let y1 := get_dequant_value boxesTensor.data .uint8 (i * 4 + 1)
      (boxesTensor.qparams.zero_point : ℚ) boxesTensor.qparams.scale
    let x2 := get_dequant_value boxesTensor.data .uint8 (i * 4 + 2)
      (boxesTensor.qparams.zero_point : ℚ) boxesTensor.qparams.scale
    let y2 := get_dequant_value boxesTensor.data .uint8 (i * 4 + 3)
      (boxesTensor.qparams.zero_point : ℚ) boxesTensor.qparams.scale
    let clamped_x1 := max 0 (min x1 (img_w : ℚ))
    let clamped_y1 := max 0 (min y1 (img_h : ℚ))
    let clamped_x2 := max 0 (min x2 (img_w : ℚ))
    let clamped_y2 := max 0 (min y2 (img_h : ℚ))
    if clamped_x2 ≤ clamped_x1 ∨ clamped_y2 ≤ clamped_y1 then none
    else some ⟨classId,
      ⟨cppRound clamped_x1, cppRound clamped_x2,
       cppRound clamped_y1, cppRound clamped_y2⟩, score⟩

/-- The candidate list `detect` accumulates over `[0, numBoxes)`. -/
def buildCandidates (boxesTensor scoresTensor classesTensor : Tensor)
    (numBoxes : ℕ) (box_threshold : ℚ) (img_w img_h : ℕ) :
    List DetectionResult :=
  (List.range numBoxes).filterMap
    (buildCandidate boxesTensor scoresTensor classesTensor box_threshold img_w img_h)

/-- Everything `detect` does after inference: build candidates, then
class-aware NMS; this is the value `detect` returns. -/
def detectPostprocess (boxesTensor scoresTensor classesTensor : Tensor)
    (numBoxes : ℕ) (box_threshold nms_threshold : ℚ) (img_w img_h : ℕ) :
    List DetectionResult :=
  optimizedNMS
    (buildCandidates boxesTensor scoresTensor classesTensor numBoxes box_threshold img_w img_h)
    nms_threshold

/-- `cv::Mat`: dimensions, channel count, and a total pixel function
`row → col → channel → byte`. -/
structure Mat where
  rows : ℕ
  cols : ℕ
  channels : ℕ
  pix : ℕ → ℕ → ℕ → ℕ

/-- `cv::cvtColor(img, rgb, cv::COLOR_BGR2RGB)`: swap channels 0 and 2. -/
def cvtColorBGR2RGB (m : Mat) : Mat :=
  { m with pix := fun r c ch => m.pix r c (2 - ch) }

/-- `scale = target_size / max(original_h, original_w)` of `letterbox`. -/
def letterboxScale (img : Mat) (target_size : ℕ) : ℚ :=
  (target_size : ℚ) / ((max img.rows img.cols : ℕ) : ℚ)

/-- `new_w = static_cast<int>(original_w * scale)`: truncation. -/
def letterboxNewW (img : Mat) (target_size : ℕ) : ℕ :=
  (⌊(img.cols : ℚ) * letterboxScale img target_size⌋).toNat

/-- `new_h = static_cast<int>(original_h * scale)`: truncation. -/
def letterboxNewH (img : Mat) (target_size : ℕ) : ℕ :=
  (⌊(img.rows : ℚ) * letterboxScale img target_size⌋).toNat

/-- `top = (target_size - new_h) / 2` (integer division). -/
def letterboxTop (img : Mat) (target_size : ℕ) : ℕ :=
  (target_size - letterboxNewH img target_size) / 2

/-- `left = (target_size - new_w) / 2` (integer division). -/
def letterboxLeft (img : Mat) (target_size : ℕ) : ℕ :=
  (target_size - letterboxNewW img target_size) / 2

/-- `letterbox` from the source: resize (via the external image
library, passed in as `resize`), allocate a zero canvas of
`target_size × target_size` with the input's channel type, and paste
the resized image at the computed margins. -/
def letterbox (resize : Mat → ℕ → ℕ → Mat) (img : Mat) (target_size : ℕ) : Mat :=
  { rows := target_size
    cols := target_size
    channels := img.channels
    pix := fun r c ch =>
      if letterboxTop img target_size ≤ r
         ∧ r < letterboxTop img target_size + letterboxNewH img target_size
         ∧ letterboxLeft img target_size ≤ c
         ∧ c < letterboxLeft img target_size + letterboxNewW img target_size
      then (resize img (letterboxNewW img target_size) (letterboxNewH img target_size)).pix
             (r - letterboxTop img target_size) (c - letterboxLeft img target_size) ch
      else 0 }

/-- The pre-inference steps of `detect` (source lines 270–279): convert
BGR→RGB, letterbox `img_mat` when dimensions differ, and return the mat
whose `data` is then `memcpy`ed into the input tensor.  The source
copies `rgb.data`, so the letterboxed mat assigned to `img_mat` is
discarded. -/
def detectPreprocess (resize : Mat → ℕ → ℕ → Mat) (img : Mat)
    (in_w in_h : ℕ) : Mat :=
  let img_mat := img
  let rgb := cvtColorBGR2RGB img_mat
  let img_mat := if img.cols ≠ in_w ∨ img.rows ≠ in_h
    then letterbox resize img_mat in_w else img_mat
  rgb

/-! ### Concrete instances used by witnesses and counterexamples -/

/-- A concrete image-library resize collaborator returning an image of
the requested size. -/
def resize0 : Mat → ℕ → ℕ → Mat :=
  fun img w h => ⟨h, w, img.channels, fun r c ch => img.pix r c ch⟩

/-- A concrete 320×320 3-channel image. -/
def mat320 : Mat := ⟨320, 320, 3, fun _ _ _ => 1⟩

/-- A concrete 641×100 image, distinguishing truncation from rounding. -/
def mat641 : Mat := ⟨641, 100, 3, fun _ _ _ => 0⟩

/-- A concrete 320×640 3-channel image. -/
def mat320x640 : Mat := ⟨320, 640, 3, fun _ _ _ => 7⟩

/-- Tensor memory whose little-endian bytes 0x00 0x00 0xE0 0x40 hold
the IEEE-754 single-precision float 7.0 at index 0. -/
def floatSevenData : TensorData :=
  ⟨fun n => if n = 2 then 224 else if n = 3 then 64 else 0, fun _ => 7⟩

/-- Boxes tensor holding one raw box (9, 0, 11, 8), scale 1/8. -/
def boxesT0 : Tensor :=
  ⟨⟨fun n => if n = 0 then 9 else if n = 1 then 0 else if n = 2 then 11
     else if n = 3 then 8 else 0, fun _ => 0⟩, .uint8, ⟨0, 1/8⟩⟩

/-- Scores tensor holding the raw score 255, scale 1. -/
def scoresT0 : Tensor := ⟨⟨fun _ => 255, fun _ => 0⟩, .uint8, ⟨0, 1⟩⟩

/-- Classes tensor holding class id 3 everywhere. -/
def classesT0 : Tensor := ⟨⟨fun _ => 3, fun _ => 0⟩, .uint8, ⟨0, 1⟩⟩

/-- A detection of class 0 with confidence 0.9. -/
def detA : DetectionResult := ⟨0, ⟨0, 10, 0, 10⟩, 9/10⟩

/-- A detection of class 1 on the same box with confidence 0.6. -/
def detB : DetectionResult := ⟨1, ⟨0, 10, 0, 10⟩, 6/10⟩

/-! ### C5: the dequantizer contract -/

/-- C5: for every raw value, zero point and scale the dequantizer
returns `(raw - zero_point) * scale` for 8-bit unsigned storage,
returns the stored value unchanged for float storage, and returns
exactly 0 for any other storage kind; with `zero_point = 128` and
`scale = 0.00392157`, raw 128 dequantizes to 0 and raw 255 to ≈0.498. -/
theorem get_dequant_value_contract :
    (∀ (d : TensorData) (i : ℕ) (zp sc : ℚ),
        get_dequant_value d .uint8 i zp sc = ((d.bytes i : ℚ) - zp) * sc
      ∧ get_dequant_value d .float32 i zp sc = d.floats i
      ∧ ∀ t : TfLiteType, t ≠ .uint8 → t ≠ .float32 →
          get_dequant_value d t i zp sc = 0)
    ∧ get_dequant_value ⟨fun _ => 128, fun _ => 0⟩ .uint8 0 128 (392157/100000000) = 0
    ∧ |get_dequant_value ⟨fun _ => 255, fun _ => 0⟩ .uint8 0 128 (392157/100000000)
        - 498/1000| < 1/1000 := by
  refine ⟨fun d i zp sc => ⟨rfl, rfl, fun t h1 h2 => ?_⟩, ?_, ?_⟩
  · cases t <;> simp_all [get_dequant_value]
  · norm_num [get_dequant_value]
  · rw [abs_lt]
    constructor <;> norm_num [get_dequant_value]

/-- Witness for `get_dequant_value_contract`: the default branch at the
concrete storage kind int32 yields 0. -/
theorem get_dequant_value_contract_witness :
    get_dequant_value ⟨fun _ => 9, fun _ => 9⟩ .int32 0 1 1 = 0 :=
  (get_dequant_value_contract.1 ⟨fun _ => 9, fun _ => 9⟩ 0 1 1).2.2 .int32
    (by decide) (by decide)

/-! ### C6: detect hardcodes 8-bit decoding -/

/-- C6 counterexample: a scores tensor whose declared storage kind is
float32 and whose memory holds the float 7.0 is nevertheless decoded by
`detect`'s candidate loop as 8-bit quantized data (the literal
`kTfLiteUInt8` is passed), yielding 0 from the leading byte instead of
the float value 7. -/
theorem detect_ignores_storage_kind_cex :
    candidateScore ⟨floatSevenData, .float32, ⟨0, 1⟩⟩ 0
      ≠ get_dequant_value floatSevenData .float32 0 0 1 := by
  norm_num [candidateScore, get_dequant_value, floatSevenData]

/-- C6 amended: `detect` decodes per-candidate scores and box
coordinates as 8-bit unsigned quantized values unconditionally; its
result never depends on the output tensors' declared storage kinds. -/
theorem detectPostprocess_independent_of_ttype
    (bD sD cD : TensorData) (bQ sQ cQ : QuantParams)
    (t1 t2 t3 t1' t2' t3' : TfLiteType)
    (numBoxes : ℕ) (box_threshold nms_threshold : ℚ) (img_w img_h : ℕ) :
    detectPostprocess ⟨bD, t1, bQ⟩ ⟨sD, t2, sQ⟩ ⟨cD, t3, cQ⟩
        numBoxes box_threshold nms_threshold img_w img_h
      = detectPostprocess ⟨bD, t1', bQ⟩ ⟨sD, t2', sQ⟩ ⟨cD, t3', cQ⟩
        numBoxes box_threshold nms_threshold img_w img_h := rfl

/-! ### C1: the letterboxed image never reaches the input tensor -/

/-- C1: for the 320×320 input `mat320` and a 640×640 model input the
dimensions differ, so the letterbox branch is taken; yet the mat whose
data `detect` copies into the input tensor is `rgb`, the color-converted
but un-letterboxed image (320 columns), not the 640-column letterboxed
image — the letterbox result assigned to `img_mat` is discarded. -/
theorem detect_copies_unletterboxed_rgb :
    mat320.cols ≠ 640
    ∧ detectPreprocess resize0 mat320 640 640 = cvtColorBGR2RGB mat320
    ∧ (detectPreprocess resize0 mat320 640 640).cols = 320
    ∧ (letterbox resize0 (cvtColorBGR2RGB mat320) 640).cols = 640 :=
  ⟨by decide, rfl, rfl, rfl⟩

/-! ### C3: letterbox truncates where the claim says round -/

/-- C3 counterexample: for the 641×100 image and target size 640 the
code computes the new width as `int(100 * scale) = 99` by truncation,
while the claim's `round(width * scale)` is 100. -/
theorem letterbox_truncates_not_rounds_cex :
    letterboxNewW mat641 640 = 99
    ∧ (cppRound ((mat641.cols : ℚ) * letterboxScale mat641 640)).toNat = 100
    ∧ letterboxNewW mat641 640
        ≠ (cppRound ((mat641.cols : ℚ) * letterboxScale mat641 640)).toNat := by
  have hfloor : ⌊(100 : ℚ) * ((640 : ℚ) / 641)⌋ = 99 := by
    norm_num [Int.floor_eq_iff]
  have hround : ⌊(100 : ℚ) * ((640 : ℚ) / 641) + 1/2⌋ = 100 := by
    norm_num [Int.floor_eq_iff]
  have h1 : letterboxNewW mat641 640 = 99 := by
    norm_num [letterboxNewW, letterboxScale, mat641, hfloor]
    decide
  have h2 : (cppRound ((mat641.cols : ℚ) * letterboxScale mat641 640)).toNat = 100 := by
    have hnn : (0 : ℚ) ≤ (100 : ℚ) * ((640 : ℚ) / 641) := by positivity
    norm_num [cppRound, letterboxScale, mat641, hnn, hround]
    decide
  exact ⟨h1, h2, by rw [h1, h2]; decide⟩

/-- The truncated resize width never exceeds the target size. -/
lemma letterboxNewW_le (img : Mat) (target_size : ℕ)
    (hpos : 0 < max img.rows img.cols) :
    letterboxNewW img target_size ≤ target_size := by
  have hm : (0 : ℚ) < ((max img.rows img.cols : ℕ) : ℚ) := by exact_mod_cast hpos
  have hc : (img.cols : ℚ) ≤ ((max img.rows img.cols : ℕ) : ℚ) := by
    exact_mod_cast le_max_right img.rows img.cols
  have h1 : (img.cols : ℚ) * letterboxScale img target_size ≤ (target_size : ℚ) := by
    rw [letterboxScale, mul_div_assoc']
    rw [div_le_iff₀ hm]
    calc (img.cols : ℚ) * (target_size : ℚ)
        ≤ ((max img.rows img.cols : ℕ) : ℚ) * (target_size : ℚ) := by
          exact mul_le_mul_of_nonneg_right hc (by positivity)
      _ = (target_size : ℚ) * ((max img.rows img.cols : ℕ) : ℚ) := mul_comm _ _
  have h2 : ⌊(img.cols : ℚ) * letterboxScale img target_size⌋ ≤ (target_size : ℤ) := by
    calc ⌊(img.cols : ℚ) * letterboxScale img target_size⌋
        ≤ ⌊(target_size : ℚ)⌋ := Int.floor_le_floor h1
      _ = (target_size : ℤ) := Int.floor_natCast _
  exact Int.toNat_le.mpr h2

/-- The truncated resize height never exceeds the target size. -/
lemma letterboxNewH_le (img : Mat) (target_size : ℕ)
    (hpos : 0 < max img.rows img.cols) :
    letterboxNewH img target_size ≤ target_size := by
  have hm : (0 : ℚ) < ((max img.rows img.cols : ℕ) : ℚ) := by exact_mod_cast hpos
  have hc : (img.rows : ℚ) ≤ ((max img.rows img.cols : ℕ) : ℚ) := by
    exact_mod_cast le_max_left img.rows img.cols
  have h1 : (img.rows : ℚ) * letterboxScale img target_size ≤ (target_size : ℚ) := by
    rw [letterboxScale, mul_div_assoc']
    rw [div_le_iff₀ hm]
    calc (img.rows : ℚ) * (target_size : ℚ)
        ≤ ((max img.rows img.cols : ℕ) : ℚ) * (target_size : ℚ) := by
          exact mul_le_mul_of_nonneg_right hc (by positivity)
      _ = (target_size : ℚ) * ((max img.rows img.cols : ℕ) : ℚ) := mul_comm _ _
  have h2 : ⌊(img.rows : ℚ) * letterboxScale img target_size⌋ ≤ (target_size : ℤ) := by
    calc ⌊(img.rows : ℚ) * letterboxScale img target_size⌋
        ≤ ⌊(target_size : ℚ)⌋ := Int.floor_le_floor h1
      _ = (target_size : ℤ) := Int.floor_natCast _
  exact Int.toNat_le.mpr h2

/-- C3 amended: letterbox computes `scale = target_size / max(h, w)`,
resizes to `(trunc(w*scale), trunc(h*scale))` (truncation toward zero,
not rounding), pastes onto a zero-filled `target_size × target_size`
canvas at top margin `(target_size - new_h)/2` and left margin
`(target_size - new_w)/2`, the resized dimensions never exceeding the
target. -/
theorem letterbox_algorithm_amended (resize : Mat → ℕ → ℕ → Mat)
    (img : Mat) (target_size : ℕ) (hpos : 0 < max img.rows img.cols) :
    letterboxScale img target_size
        = (target_size : ℚ) / ((max img.rows img.cols : ℕ) : ℚ)
    ∧ letterboxNewW img target_size
        = (⌊(img.cols : ℚ) * letterboxScale img target_size⌋).toNat
    ∧ letterboxNewH img target_size
        = (⌊(img.rows : ℚ) * letterboxScale img target_size⌋).toNat
    ∧ letterboxNewW img target_size ≤ target_size
    ∧ letterboxNewH img target_size ≤ target_size
    ∧ letterboxTop img target_size
        = (target_size - letterboxNewH img target_size) / 2
    ∧ letterboxLeft img target_size
        = (target_size - letterboxNewW img target_size) / 2
    ∧ (letterbox resize img target_size).rows = target_size
    ∧ (letterbox resize img target_size).cols = target_size
    ∧ ∀ r c ch, (letterbox resize img target_size).pix r c ch =
        if letterboxTop img target_size ≤ r
           ∧ r < letterboxTop img target_size + letterboxNewH img target_size
           ∧ letterboxLeft img target_size ≤ c
           ∧ c < letterboxLeft img target_size + letterboxNewW img target_size
        then (resize img (letterboxNewW img target_size)
                (letterboxNewH img target_size)).pix
               (r - letterboxTop img target_size)
               (c - letterboxLeft img target_size) ch
        else 0 :=
  ⟨rfl, rfl, rfl, letterboxNewW_le img target_size hpos,
   letterboxNewH_le img target_size hpos, rfl, rfl, rfl, rfl,
   fun _ _ _ => rfl⟩

/-- Witness for `letterbox_algorithm_amended` at the concrete 641×100
image: the truncated resize height is within the 640×640 canvas. -/
theorem letterbox_algorithm_amended_witness :
    letterboxNewH mat641 640 ≤ 640 :=
  (letterbox_algorithm_amended resize0 mat641 640 (by decide)).2.2.2.2.1

/-! ### C4: letterbox shape invariant -/

/-- C4: for any input image and target 640 the letterbox output is
exactly 640×640 with the input's channel depth; for a 320×640 input the
scale is 1, the resized dimensions are 320×640, the top margin 160, the
left margin 0, and the unused canvas rows are exactly zero. -/
theorem letterbox_shape_invariant (resize : Mat → ℕ → ℕ → Mat) (img : Mat) :
    (letterbox resize img 640).rows = 640
    ∧ (letterbox resize img 640).cols = 640
    ∧ (letterbox resize img 640).channels = img.channels
    ∧ (img.rows = 320 → img.cols = 640 →
        letterboxScale img 640 = 1
        ∧ letterboxNewW img 640 = 640
        ∧ letterboxNewH img 640 = 320
        ∧ letterboxTop img 640 = 160
        ∧ letterboxLeft img 640 = 0
        ∧ ∀ r c ch, r < 160 ∨ 480 ≤ r →
            (letterbox resize img 640).pix r c ch = 0) := by
  refine ⟨rfl, rfl, rfl, fun h320 h640 => ?_⟩
  have hscale : letterboxScale img 640 = 1 := by
    rw [letterboxScale, h320, h640]
    norm_num
  have hw : letterboxNewW img 640 = 640 := by
    rw [letterboxNewW, hscale, h640]
    norm_num
    decide
  have hh : letterboxNewH img 640 = 320 := by
    rw [letterboxNewH, hscale, h320]
    norm_num
    decide
  have htop : letterboxTop img 640 = 160 := by
    rw [letterboxTop, hh]
  have hleft : letterboxLeft img 640 = 0 := by
    rw [letterboxLeft, hw]
  refine ⟨hscale, hw, hh, htop, hleft, fun r c ch hr => ?_⟩
  show (if letterboxTop img 640 ≤ r
          ∧ r < letterboxTop img 640 + letterboxNewH img 640
          ∧ letterboxLeft img 640 ≤ c
          ∧ c < letterboxLeft img 640 + letterboxNewW img 640
        then _ else 0) = 0
  rw [htop, hh, hleft, hw]
  have : ¬(160 ≤ r ∧ r < 160 + 320 ∧ 0 ≤ c ∧ c < 0 + 640) := by omega
  rw [if_neg this]

/-- Witness for `letterbox_shape_invariant` at the concrete 320×640
image: the top-left canvas pixel is zero padding. -/
theorem letterbox_shape_invariant_witness :
    (letterbox resize0 mat320x640 640).pix 0 0 0 = 0 :=
  (((letterbox_shape_invariant resize0 mat320x640).2.2.2 rfl rfl).2.2.2.2.2)
    0 0 0 (Or.inl (by decide))

/-! ### C7: the tensor geometry scan -/

/-- Behaviour of the scan once three non-singletons were assigned, as a
function of the remaining non-singleton dimensions. -/
def tidFrom3 (w h c : ℤ) (ns : List ℤ) : Option (ℤ × ℤ × ℤ) :=
  match ns with
  | [] => if 4 < c then none else some (w, h, c)
  | _ :: _ => none

/-- Behaviour of the scan once two non-singletons were assigned. -/
def tidFrom2 (w h : ℤ) (ns : List ℤ) : Option (ℤ × ℤ × ℤ) :=
  match ns with
  | [] => some (w, h, 1)
  | [d] => if d = 0 ∨ 4 < d then none else some (w, h, d)
  | _ => none

/-- Behaviour of the scan once one non-singleton was assigned. -/
def tidFrom1 (w : ℤ) (ns : List ℤ) : Option (ℤ × ℤ × ℤ) :=
  match ns with
  | [b] => if b = 0 then none else some (w, b, 1)
  | [b, d] => if b = 0 ∨ d = 0 ∨ 4 < d then none else some (w, b, d)
  | _ => none

/-- Behaviour of the whole scan as a function of the non-singleton
dimensions. -/
def tidFrom0 (ns : List ℤ) : Option (ℤ × ℤ × ℤ) :=
  match ns with
  | [a, b] => if a = 0 ∨ b = 0 then none else some (a, b, 1)
  | [a, b, d] => if a = 0 ∨ b = 0 ∨ d = 0 ∨ 4 < d then none else some (a, b, d)
  | _ => none

lemma tidFrom2_zero (w h : ℤ) (ns : List ℤ) : tidFrom2 w h (0 :: ns) = none := by
  cases ns <;> simp [tidFrom2]

lemma tidFrom1_zero (w : ℤ) (ns : List ℤ) : tidFrom1 w (0 :: ns) = none := by
  cases ns with
  | nil => simp [tidFrom1]
  | cons b t => cases t <;> simp [tidFrom1]

lemma tidFrom0_zero (ns : List ℤ) : tidFrom0 (0 :: ns) = none := by
  cases ns with
  | nil => simp [tidFrom0]
  | cons b t =>
    cases t with
    | nil => simp [tidFrom0]
    | cons d u => cases u <;> simp [tidFrom0]

lemma tidFrom2_cons (w h d : ℤ) (ns : List ℤ) (hd : d ≠ 0) :
    tidFrom2 w h (d :: ns) = tidFrom3 w h d ns := by
  cases ns <;> simp [tidFrom2, tidFrom3, hd]

lemma tidFrom1_cons (w b : ℤ) (ns : List ℤ) (hb : b ≠ 0) :
    tidFrom1 w (b :: ns) = tidFrom2 w b ns := by
  cases ns with
  | nil => simp [tidFrom1, tidFrom2, hb]
  | cons d t => cases t <;> simp [tidFrom1, tidFrom2, hb]

lemma tidFrom0_cons (a : ℤ) (ns : List ℤ) (ha : a ≠ 0) :
    tidFrom0 (a :: ns) = tidFrom1 a ns := by
  cases ns with
  | nil => simp [tidFrom0, tidFrom1]
  | cons b t =>
    cases t with
    | nil => simp [tidFrom0, tidFrom1, ha]
    | cons d u => cases u <;> simp [tidFrom0, tidFrom1, ha]

lemma tidLoop3_eq (rest : List ℤ) : ∀ w h c : ℤ,
    tidLoop rest 3 w h c = tidFrom3 w h c (rest.filter notOne) := by
  induction rest with
  | nil => intro w h c; simp [tidLoop, tidFrom3]
  | cons d rest ih =>
    intro w h c
    by_cases h0 : d = 0
    · subst h0
      simp [tidLoop, tidFrom3, notOne]
    · by_cases h1 : d = 1
      · subst h1
        simpa [tidLoop] using ih w h c
      · simp [tidLoop, h0, h1, tidFrom3, notOne]

lemma tidLoop2_eq (rest : List ℤ) : ∀ w h c : ℤ,
    tidLoop rest 2 w h c = tidFrom2 w h (rest.filter notOne) := by
  induction rest with
  | nil => intro w h c; simp [tidLoop, tidFrom2]
  | cons d rest ih =>
    intro w h c
    by_cases h0 : d = 0
    · subst h0
      simp [tidLoop, notOne, tidFrom2_zero]
    · by_cases h1 : d = 1
      · subst h1
        simpa [tidLoop] using ih w h c
      · rw [show tidLoop (d :: rest) 2 w h c = tidLoop rest 3 w h d by
          simp [tidLoop, h0, h1]]
        rw [tidLoop3_eq]
        rw [show (d :: rest).filter notOne =
          d :: rest.filter notOne by simp [notOne, h1]]
        rw [tidFrom2_cons _ _ _ _ h0]

lemma tidLoop1_eq (rest : List ℤ) : ∀ w h c : ℤ,
    tidLoop rest 1 w h c = tidFrom1 w (rest.filter notOne) := by
  induction rest with
  | nil => intro w h c; simp [tidLoop, tidFrom1]
  | cons d rest ih =>
    intro w h c
    by_cases h0 : d = 0
    · subst h0
      simp [tidLoop, notOne, tidFrom1_zero]
    · by_cases h1 : d = 1
      · subst h1
        simpa [tidLoop] using ih w h c
      · rw [show tidLoop (d :: rest) 1 w h c = tidLoop rest 2 w d c by
          simp [tidLoop, h0, h1]]
        rw [tidLoop2_eq]
        rw [show (d :: rest).filter notOne =
          d :: rest.filter notOne by simp [notOne, h1]]
        rw [tidFrom1_cons _ _ _ h0]

lemma tidLoop0_eq (rest : List ℤ) : ∀ w h c : ℤ,
    tidLoop rest 0 w h c = tidFrom0 (rest.filter notOne) := by
  induction rest with
  | nil => intro w h c; simp [tidLoop, tidFrom0]
  | cons d rest ih =>
    intro w h c
    by_cases h0 : d = 0
    · subst h0
      simp [tidLoop, notOne, tidFrom0_zero]
    · by_cases h1 : d = 1
      · subst h1
        simpa [tidLoop] using ih w h c
      · rw [show tidLoop (d :: rest) 0 w h c = tidLoop rest 1 d h c by
          simp [tidLoop, h0, h1]]
        rw [tidLoop1_eq]
        rw [show (d :: rest).filter notOne =
          d :: rest.filter notOne by simp [notOne, h1]]
        rw [tidFrom0_cons _ _ h0]


/-- C7: the geometry scan skips singleton dimensions, assigns the first
non-singleton to width, the second to height, the third to channels
(defaulting to 1 with exactly two non-singletons), and errors exactly
when some dimension is 0, more than three or fewer than two
non-singleton dimensions exist, or the resolved channel count exceeds
4 — i.e. it agrees with the claim's description `tid_claim` on every
dimension list. -/
theorem tensor_image_dims_matches_claim (dims : List ℤ) :
    tensor_image_dims dims = tid_claim dims := by
  rw [tensor_image_dims, tidLoop0_eq, tid_claim]
  have hmem : ((0 : ℤ) ∈ dims) ↔ (0 : ℤ) ∈ dims.filter notOne := by
    simp [List.mem_filter, notOne]
  rcases hns : dims.filter notOne with _ | ⟨a, _ | ⟨b, _ | ⟨d, _ | ⟨e, tail⟩⟩⟩⟩
  · rw [hns] at hmem
    simp only [List.not_mem_nil, iff_false] at hmem
    simp [tidFrom0, hmem]
  · rw [hns] at hmem
    simp only [List.mem_singleton, eq_comm] at hmem
    by_cases ha : a = 0
    · have hm : (0:ℤ) ∈ dims := hmem.mpr ha
      simp [tidFrom0, hm]
    · have hm : ¬ ((0:ℤ) ∈ dims) := fun h => ha (hmem.mp h)
      simp [tidFrom0, hm]
  · rw [hns] at hmem
    simp only [List.mem_cons, List.mem_singleton, List.not_mem_nil, or_false,
      eq_comm] at hmem
    by_cases hz : a = 0 ∨ b = 0
    · have hm : (0:ℤ) ∈ dims := hmem.mpr hz
      simp [tidFrom0, hz, hm]
    · push_neg at hz
      have hm : ¬ ((0:ℤ) ∈ dims) := fun h => by
        rcases hmem.mp h with h' | h'
        · exact hz.1 h'
        · exact hz.2 h'
      simp [tidFrom0, hm, hz.1, hz.2, List.getD]
  · rw [hns] at hmem
    simp only [List.mem_cons, List.mem_singleton, List.not_mem_nil, or_false,
      eq_comm] at hmem
    by_cases hz : a = 0 ∨ b = 0 ∨ d = 0
    · have hm : (0:ℤ) ∈ dims := hmem.mpr hz
      rcases hz with h | h | h <;> simp [tidFrom0, h, hm]
    · push_neg at hz
      have hm : ¬ ((0:ℤ) ∈ dims) := fun h => by
        rcases hmem.mp h with h' | h' | h'
        · exact hz.1 h'
        · exact hz.2.1 h'
        · exact hz.2.2 h'
      by_cases hc : 4 < d
      · simp [tidFrom0, hz.1, hz.2.1, hz.2.2, hc, hm, List.getD]
      · simp [tidFrom0, hz.1, hz.2.1, hz.2.2, hc, hm, List.getD]
  · by_cases hz : (0:ℤ) ∈ dims
    · simp [tidFrom0, hz]
    · simp [tidFrom0, hz]

/-! ### NMS engine lemmas -/

/-- Two candidates do not conflict under threshold `thr`: the later one
is not a same-class overlap of the earlier one (the suppression test of
the inner loop, negated). -/
def noMutualSuppress (thr : ℚ) (x y : DetectionResult) : Prop :=
  ¬(y.id = x.id ∧ thr < calculateIoU x.box y.box)

lemma mem_insertDesc {a x : DetectionResult} :
    ∀ {l : List DetectionResult}, a ∈ insertDesc x l ↔ a = x ∨ a ∈ l := by
  intro l
  induction l with
  | nil => simp [insertDesc]
  | cons y ys ih =>
    simp only [insertDesc]
    split
    · simp [List.mem_cons]
    · simp only [List.mem_cons, ih]
      tauto

lemma mem_sortDesc {a : DetectionResult} :
    ∀ {l : List DetectionResult}, a ∈ sortDesc l ↔ a ∈ l := by
  intro l
  induction l with
  | nil => simp [sortDesc]
  | cons y ys ih => simp [sortDesc, mem_insertDesc, ih]

lemma insertDesc_pairwise {x : DetectionResult} {l : List DetectionResult}
    (h : l.Pairwise (fun a b => b.confidence ≤ a.confidence)) :
    (insertDesc x l).Pairwise (fun a b => b.confidence ≤ a.confidence) := by
  induction l with
  | nil => simp [insertDesc]
  | cons y ys ih =>
    rw [List.pairwise_cons] at h
    obtain ⟨hy, hys⟩ := h
    simp only [insertDesc]
    split
    · rename_i hxy
      rw [List.pairwise_cons]
      refine ⟨fun b hb => ?_, List.pairwise_cons.mpr ⟨hy, hys⟩⟩
      rcases List.mem_cons.mp hb with rfl | hb
      · exact hxy
      · exact (hy b hb).trans hxy
    · rename_i hxy
      push_neg at hxy
      rw [List.pairwise_cons]
      refine ⟨fun b hb => ?_, ih hys⟩
      rcases mem_insertDesc.mp hb with rfl | hb
      · exact le_of_lt hxy
      · exact hy b hb

lemma sortDesc_pairwise (l : List DetectionResult) :
    (sortDesc l).Pairwise (fun a b => b.confidence ≤ a.confidence) := by
  induction l with
  | nil => simp [sortDesc]
  | cons y ys ih => exact insertDesc_pairwise ih

lemma suppressPass_map_fst (cur : DetectionResult) (thr : ℚ)
    (l : List (DetectionResult × Bool)) :
    (suppressPass cur thr l).map Prod.fst = l.map Prod.fst := by
  induction l with
  | nil => simp [suppressPass]
  | cons p rest ih =>
    simp only [suppressPass, List.map_cons] at ih ⊢
    split
    · simpa using ih
    · simpa using ih

lemma suppressPass_length (cur : DetectionResult) (thr : ℚ)
    (l : List (DetectionResult × Bool)) :
    (suppressPass cur thr l).length = l.length := by
  simp [suppressPass]

lemma nmsLoop_sublist (thr : ℚ) :
    ∀ (n : ℕ) (l : List (DetectionResult × Bool)), l.length ≤ n →
      List.Sublist (nmsLoop thr l) (l.map Prod.fst) := by
  intro n
  induction n with
  | zero =>
    intro l hl
    obtain rfl : l = [] := List.length_eq_zero.mp (Nat.le_zero.mp hl)
    simp [nmsLoop]
  | succ n ih =>
    intro l hl
    match l with
    | [] => simp [nmsLoop]
    | p :: rest =>
      simp only [nmsLoop, List.map_cons]
      by_cases hs : p.2 = true
      · rw [if_pos hs]
        exact .cons _ (ih rest (by simp at hl; omega))
      · rw [if_neg hs]
        refine .cons₂ _ ?_
        have hlen : (suppressPass p.1 thr rest).length ≤ n := by
          rw [suppressPass_length]
          simp at hl
          omega
        have := ih (suppressPass p.1 thr rest) hlen
        rwa [suppressPass_map_fst] at this

lemma suppressPass_false_mem {cur : DetectionResult} {thr : ℚ}
    {l : List (DetectionResult × Bool)} {d : DetectionResult}
    (h : (d, false) ∈ suppressPass cur thr l) :
    (d, false) ∈ l ∧ noMutualSuppress thr cur d := by
  rw [suppressPass, List.mem_map] at h
  obtain ⟨p, hp, heq⟩ := h
  by_cases hcond : p.2 = false ∧ p.1.id = cur.id ∧ thr < calculateIoU cur.box p.1.box
  · rw [if_pos hcond] at heq
    exact absurd (congrArg Prod.snd heq) (by simp)
  · rw [if_neg hcond] at heq
    subst heq
    refine ⟨hp, fun hbad => hcond ⟨rfl, hbad⟩⟩

lemma mem_nmsLoop (thr : ℚ) :
    ∀ (n : ℕ) (l : List (DetectionResult × Bool)) (d : DetectionResult),
      l.length ≤ n → d ∈ nmsLoop thr l → (d, false) ∈ l := by
  intro n
  induction n with
  | zero =>
    intro l d hl
    obtain rfl : l = [] := List.length_eq_zero.mp (Nat.le_zero.mp hl)
    simp [nmsLoop]
  | succ n ih =>
    intro l d hl hd
    cases l with
    | nil => simp [nmsLoop] at hd
    | cons p rest =>
      simp only [nmsLoop] at hd
      by_cases hs : p.2 = true
      · rw [if_pos hs] at hd
        exact List.mem_cons_of_mem p (ih rest d (by simp at hl; omega) hd)
      · rw [if_neg hs] at hd
        rcases List.mem_cons.mp hd with heq | hd
        · have h2 : p.2 = false := by
            cases hp2 : p.2
            · rfl
            · exact absurd hp2 hs
          have hp : p = (d, false) := by
            rw [heq]
            exact Prod.ext rfl h2
          rw [hp]
          exact List.mem_cons_self _ _
        · have hlen : (suppressPass p.1 thr rest).length ≤ n := by
            rw [suppressPass_length]
            simp at hl
            omega
          have := ih (suppressPass p.1 thr rest) d hlen hd
          exact List.mem_cons_of_mem p (suppressPass_false_mem this).1

lemma nmsLoop_pairwise (thr : ℚ) :
    ∀ (n : ℕ) (l : List (DetectionResult × Bool)), l.length ≤ n →
      (nmsLoop thr l).Pairwise (noMutualSuppress thr) := by
  intro n
  induction n with
  | zero =>
    intro l hl
    obtain rfl : l = [] := List.length_eq_zero.mp (Nat.le_zero.mp hl)
    simp [nmsLoop]
  | succ n ih =>
    intro l hl
    match l with
    | [] => simp [nmsLoop]
    | p :: rest =>
      simp only [nmsLoop]
      by_cases hs : p.2 = true
      · rw [if_pos hs]
        exact ih rest (by simp at hl; omega)
      · rw [if_neg hs]
        have hlen : (suppressPass p.1 thr rest).length ≤ n := by
          rw [suppressPass_length]
          simp at hl
          omega
        rw [List.pairwise_cons]
        refine ⟨fun d hd => ?_, ih _ hlen⟩
        exact (suppressPass_false_mem
          (mem_nmsLoop thr n (suppressPass p.1 thr rest) d hlen hd)).2

lemma suppressPass_id {cur : DetectionResult} {thr : ℚ}
    {l : List (DetectionResult × Bool)}
    (h : ∀ p ∈ l, noMutualSuppress thr cur p.1) :
    suppressPass cur thr l = l := by
  induction l with
  | nil => simp [suppressPass]
  | cons p rest ih =>
    have hp := h p (List.mem_cons_self _ _)
    have hcond : ¬(p.2 = false ∧ p.1.id = cur.id ∧ thr < calculateIoU cur.box p.1.box) :=
      fun hc => hp ⟨hc.2.1, hc.2.2⟩
    simp only [suppressPass, List.map_cons, if_neg hcond]
    have := ih (fun q hq => h q (List.mem_cons_of_mem p hq))
    rw [suppressPass] at this
    rw [this]

lemma nmsLoop_fixed (thr : ℚ) :
    ∀ (l : List DetectionResult), l.Pairwise (noMutualSuppress thr) →
      nmsLoop thr (l.map (fun c => (c, false))) = l := by
  intro l
  induction l with
  | nil => intro _; simp [nmsLoop]
  | cons c rest ih =>
    intro h
    rw [List.pairwise_cons] at h
    obtain ⟨hc, hrest⟩ := h
    simp only [List.map_cons, nmsLoop]
    rw [if_neg (by simp)]
    rw [suppressPass_id (fun p hp => ?_), ih hrest]
    rw [List.mem_map] at hp
    obtain ⟨q, hq, rfl⟩ := hp
    exact hc q hq

lemma sortDesc_fixed :
    ∀ (l : List DetectionResult),
      l.Pairwise (fun a b => b.confidence ≤ a.confidence) → sortDesc l = l := by
  intro l
  induction l with
  | nil => intro _; rfl
  | cons x xs ih =>
    intro h
    rw [List.pairwise_cons] at h
    obtain ⟨hx, hxs⟩ := h
    rw [sortDesc, ih hxs]
    cases xs with
    | nil => rfl
    | cons y ys =>
      rw [insertDesc, if_pos (hx y (List.mem_cons_self _ _))]

lemma optimizedNMS_sorted (cands : List DetectionResult) (thr : ℚ) :
    (optimizedNMS cands thr).Pairwise (fun a b => b.confidence ≤ a.confidence) := by
  have hsub := nmsLoop_sublist thr ((sortDesc cands).map (fun c => (c, false))).length
    ((sortDesc cands).map (fun c => (c, false))) le_rfl
  have hmap : (((sortDesc cands).map (fun c => (c, false))).map Prod.fst)
      = sortDesc cands := by
    rw [List.map_map, show (Prod.fst ∘ fun c : DetectionResult => (c, false)) = id
      from rfl, List.map_id]
  rw [hmap] at hsub
  exact (sortDesc_pairwise cands).sublist hsub

lemma optimizedNMS_pairwise (cands : List DetectionResult) (thr : ℚ) :
    (optimizedNMS cands thr).Pairwise (noMutualSuppress thr) :=
  nmsLoop_pairwise thr _ _ le_rfl

lemma mem_optimizedNMS {cands : List DetectionResult} {thr : ℚ}
    {d : DetectionResult} (h : d ∈ optimizedNMS cands thr) : d ∈ cands := by
  have := mem_nmsLoop thr ((sortDesc cands).map (fun c => (c, false))).length
    _ d le_rfl h
  rw [List.mem_map] at this
  obtain ⟨q, hq, heq⟩ := this
  have : q = d := congrArg Prod.fst heq
  subst this
  exact mem_sortDesc.mp hq

/-! ### C8, C9, C10: NMS claims -/

/-- C8: two fully overlapping candidates with different class ids are
both retained by NMS regardless of the threshold — different classes
never suppress each other. -/
theorem nms_class_isolation (a b : DetectionResult) (thr : ℚ)
    (hid : a.id ≠ b.id) (hbox : a.box = b.box) :
    a ∈ optimizedNMS [a, b] thr ∧ b ∈ optimizedNMS [a, b] thr := by
  have hido : ¬(b.id = a.id) := fun h => hid h.symm
  by_cases hc : b.confidence ≤ a.confidence
  · have hsort : sortDesc [a, b] = [a, b] := by
      simp [sortDesc, insertDesc, hc]
    rw [optimizedNMS, hsort]
    simp [nmsLoop, suppressPass, hido]
  · have hsort : sortDesc [a, b] = [b, a] := by
      simp [sortDesc, insertDesc, hc]
    rw [optimizedNMS, hsort]
    simp [nmsLoop, suppressPass, hid]

/-- Witness for `nms_class_isolation`: the concrete same-box detections
of classes 0 and 1 are both retained at threshold 0.45. -/
theorem nms_class_isolation_witness :
    detA ∈ optimizedNMS [detA, detB] (45/100)
    ∧ detB ∈ optimizedNMS [detA, detB] (45/100) :=
  nms_class_isolation detA detB (45/100) (by decide) (by decide)

/-- C9: the confidences of the NMS result are non-increasing — the
result preserves the descending order established by the sort. -/
theorem nms_confidence_nonincreasing (cands : List DetectionResult) (thr : ℚ) :
    (optimizedNMS cands thr).Pairwise (fun a b => b.confidence ≤ a.confidence) :=
  optimizedNMS_sorted cands thr

/-- C10: NMS is idempotent — applying it to its own output with the
same threshold changes nothing. -/
theorem nms_idempotent (cands : List DetectionResult) (thr : ℚ) :
    optimizedNMS (optimizedNMS cands thr) thr = optimizedNMS cands thr := by
  have hsorted := optimizedNMS_sorted cands thr
  have hpair := optimizedNMS_pairwise cands thr
  show nmsLoop thr ((sortDesc (optimizedNMS cands thr)).map (fun c => (c, false)))
      = optimizedNMS cands thr
  rw [sortDesc_fixed _ hsorted]
  exact nmsLoop_fixed thr _ hpair

/-! ### C2: box non-degeneracy -/

/-- `std::round` is monotone, hence so is the model's `cppRound`. -/
lemma cppRound_mono {p q : ℚ} (hpq : p ≤ q) : cppRound p ≤ cppRound q := by
  rw [cppRound, cppRound]
  by_cases hp : 0 ≤ p
  · rw [if_pos hp, if_pos (hp.trans hpq)]
    exact Int.floor_le_floor (by linarith)
  · rw [if_neg hp]
    by_cases hq : 0 ≤ q
    · rw [if_pos hq]
      have h1 : (⌈p - 1/2⌉ : ℤ) ≤ 0 := by
        rw [show (0 : ℤ) = ((0 : ℤ)) from rfl, Int.ceil_le]
        push_neg at hp
        push_cast
        linarith
      have h2 : (0 : ℤ) ≤ ⌊q + 1/2⌋ := by
        rw [Int.le_floor]
        push_cast
        linarith
      omega
    · rw [if_neg hq]
      exact Int.ceil_le_ceil (by linarith)

/-- C2 amended: every detection returned by `detect` has a box with
`left ≤ right` and `top ≤ bottom` (the pre-rounding coordinates are
strictly ordered, so the rounded integers are weakly ordered; rounding
can collapse a strict gap, see the counterexample). -/
theorem detect_box_nondegenerate_amended
    (boxesTensor scoresTensor classesTensor : Tensor) (numBoxes : ℕ)
    (box_threshold nms_threshold : ℚ) (img_w img_h : ℕ) (d : DetectionResult)
    (hd : d ∈ detectPostprocess boxesTensor scoresTensor classesTensor
        numBoxes box_threshold nms_threshold img_w img_h) :
    d.box.left ≤ d.box.right ∧ d.box.top ≤ d.box.bottom := by
  have hc : d ∈ buildCandidates boxesTensor scoresTensor classesTensor
      numBoxes box_threshold img_w img_h := mem_optimizedNMS hd
  rw [buildCandidates, List.mem_filterMap] at hc
  obtain ⟨i, _, hbuild⟩ := hc
  simp only [buildCandidate] at hbuild
  split at hbuild
  · exact absurd hbuild (by simp)
  · split at hbuild
    · exact absurd hbuild (by simp)
    · rename_i hdeg
      push_neg at hdeg
      rw [Option.some_inj] at hbuild
      subst hbuild
      exact ⟨cppRound_mono (le_of_lt hdeg.1), cppRound_mono (le_of_lt hdeg.2)⟩

/-- The concrete post-processing run shared by the C2 counterexample
and witness: one raw box (9, 0, 11, 8) at scale 1/8 survives the
threshold and produces the zero-width box (1, 1, 0, 1). -/
lemma detectPostprocess_concrete :
    detectPostprocess boxesT0 scoresT0 classesT0 1 (1/2) (45/100) 640 640
      = [⟨3, ⟨1, 1, 0, 1⟩, 255⟩] := by
  have hf1 : ⌊(9/8 : ℚ) + 1/2⌋ = 1 := by norm_num [Int.floor_eq_iff]
  have hf2 : ⌊(11/8 : ℚ) + 1/2⌋ = 1 := by norm_num [Int.floor_eq_iff]
  have hf3 : ⌊(0 : ℚ) + 1/2⌋ = 0 := by norm_num [Int.floor_eq_iff]
  have hf4 : ⌊(1 : ℚ) + 1/2⌋ = 1 := by norm_num [Int.floor_eq_iff]
  have hbc : buildCandidate boxesT0 scoresT0 classesT0 (1/2) 640 640 0
      = some ⟨3, ⟨1, 1, 0, 1⟩, 255⟩ := by
    norm_num [buildCandidate, candidateScore, get_dequant_value, cppRound,
      boxesT0, scoresT0, classesT0, hf1, hf2, hf3, hf4]
  have hb : buildCandidates boxesT0 scoresT0 classesT0 1 (1/2) 640 640
      = [⟨3, ⟨1, 1, 0, 1⟩, 255⟩] := by
    simp only [buildCandidates, show List.range 1 = [0] from rfl,
      List.filterMap_cons, List.filterMap_nil, hbc]
  rw [detectPostprocess, hb]
  simp [optimizedNMS, sortDesc, insertDesc, nmsLoop, suppressPass]

/-- C2 counterexample: for the concrete raw tensors above, `detect`
returns a detection whose box has `left = right = 1` — the strict
pre-rounding check does not survive rounding, so a zero-area box is
materialized. -/
theorem detect_degenerate_box_cex :
    ¬ (∀ d ∈ detectPostprocess boxesT0 scoresT0 classesT0 1 (1/2) (45/100) 640 640,
        d.box.left < d.box.right ∧ d.box.top < d.box.bottom) := by
  rw [detectPostprocess_concrete]
  intro h
  obtain ⟨h1, _⟩ := h ⟨3, ⟨1, 1, 0, 1⟩, 255⟩ (by simp)
  exact absurd h1 (by decide)

/-- Witness for `detect_box_nondegenerate_amended` at the concrete
degenerate output of `detectPostprocess_concrete`. -/
theorem detect_box_nondegenerate_amended_witness :
    (⟨3, ⟨1, 1, 0, 1⟩, 255⟩ : DetectionResult).box.left
        ≤ (⟨3, ⟨1, 1, 0, 1⟩, 255⟩ : DetectionResult).box.right
    ∧ (⟨3, ⟨1, 1, 0, 1⟩, 255⟩ : DetectionResult).box.top
        ≤ (⟨3, ⟨1, 1, 0, 1⟩, 255⟩ : DetectionResult).box.bottom :=
  detect_box_nondegenerate_amended boxesT0 scoresT0 classesT0 1 (1/2) (45/100)
    640 640 _ (by rw [detectPostprocess_concrete]; simp)
